import Mathlib

/-!
Verification development for the Discord ↔ Roblox economy bridge.

The TypeScript sources are shallowly embedded as Lean definitions:

* `packages/shared/src/txn.ts` — the processed-transaction ring buffer and
  the idempotent applier (`ProcessedTxnBuffer`, `applyIdempotentTransaction`).
* `packages/opencloud` (the Open Cloud client) — the retry/backoff loop
  (`withBackoff`) and the transient-failure handling of `request`.
* `apps/api/src/index.ts` — `verifySignature`, `hashPayload` and the
  `POST /log/transactions` handler together with the error-handler middleware.

JavaScript numbers that are used as integers (balances, deltas, timestamps)
are embedded as `Int`; millisecond wait durations, which mix integers with
`Math.random()` jitter, are embedded as `ℚ`.  A JS `Map` is embedded as an
insertion-ordered association list, and `undefined`/absent values as
`Option`.  Cryptographic digests (HMAC-SHA-256, SHA-256) are abstract
parameters of the definitions that use them: the claims under study depend
only on how digests are compared, never on digest internals.
-/

/-! ### Shared types (`packages/shared/src/types.ts`) -/

/-- Embedding of `EconomySource = "discord" | "game"`. -/
inductive EconomySource where
  | discord
  | game
deriving DecidableEq, Repr

/-- Embedding of `ProcessedTransactionRecord` from `types.ts`. -/
structure ProcessedTransactionRecord where
  txnId : String
  delta : Int
  balanceAfter : Int
  actor : String
  source : EconomySource
  processedAt : Int
  reason : Option String
deriving DecidableEq, Repr

/-- Embedding of `TransactionResult` from `types.ts`. -/
structure TransactionResult where
  balance : Int
  processed : Bool
  record : ProcessedTransactionRecord
deriving DecidableEq, Repr

/-! ### JS `Map` embedding

`ProcessedTxnBuffer.lookup` is a JS `Map<string, ProcessedTransactionRecord>`.
We embed it as an insertion-ordered association list with `get`/`set`/`delete`
matching the `Map` methods used by the source. -/

/-- Model of `Map.get`: the value of the (unique) entry with the given key. -/
def mapGet {R : Type} (m : List (String × R)) (k : String) : Option R :=
  (m.find? (fun e => e.1 == k)).map (fun e => e.2)

/-- Model of `Map.set`: replace the value in place if the key exists, else append. -/
def mapSet {R : Type} (m : List (String × R)) (k : String) (v : R) : List (String × R) :=
  if (m.find? (fun e => e.1 == k)).isSome then
    m.map (fun e => if e.1 == k then (k, v) else e)
  else
    m ++ [(k, v)]

/-- Model of `Map.delete`: remove the entry with the given key. -/
def mapDelete {R : Type} (m : List (String × R)) (k : String) : List (String × R) :=
  m.filter (fun e => !(e.1 == k))

/-! ### `ProcessedTxnBuffer` (`packages/shared/src/txn.ts`) -/

/-- State of a `ProcessedTxnBuffer`: `buffer` is the fixed-size slot array
(`null` slots are `none`), `size` its capacity, `cursor` the next write
position, `lookup` the txnId index. -/
structure ProcessedTxnBuffer where
  buffer : List (Option ProcessedTransactionRecord)
  size : Nat
  cursor : Nat
  lookup : List (String × ProcessedTransactionRecord)
deriving DecidableEq, Repr

/-- The state built by `new ProcessedTxnBuffer(size)` when `size > 0`:
`new Array(size).fill(null)`, cursor `0`, empty lookup. -/
def ProcessedTxnBuffer.fresh (size : Nat) : ProcessedTxnBuffer :=
  { buffer := List.replicate size none
    size := size
    cursor := 0
    lookup := [] }

/-- The constructor, including its `size <= 0` guard (`throw` becomes `none`). -/
def ProcessedTxnBuffer.make (size : Nat) : Option ProcessedTxnBuffer :=
  if size = 0 then none else some (ProcessedTxnBuffer.fresh size)

/-- The not-yet-seen branch of `record`: evict the slot under the cursor
(deleting the displaced record from the index), write `txn` into the slot,
index it, and advance the cursor modulo `size`. -/
def ProcessedTxnBuffer.insertFresh (b : ProcessedTxnBuffer)
    (txn : ProcessedTransactionRecord) : ProcessedTxnBuffer :=
  let displaced := b.buffer.getD b.cursor none
  let lookup1 :=
    match displaced with
    | some d => mapDelete b.lookup d.txnId
    | none => b.lookup
  { buffer := b.buffer.set b.cursor (some txn)
    size := b.size
    cursor := (b.cursor + 1) % b.size
    lookup := mapSet lookup1 txn.txnId txn }

/-- Embedding of `ProcessedTxnBuffer.record`: return the existing record (without mutation)
if the txnId was already seen, otherwise insert. -/
def ProcessedTxnBuffer.record (b : ProcessedTxnBuffer)
    (txn : ProcessedTransactionRecord) :
    (Bool × ProcessedTransactionRecord) × ProcessedTxnBuffer :=
  match mapGet b.lookup txn.txnId with
  | some existing => ((false, existing), b)
  | none => ((true, txn), b.insertFresh txn)

/-- Embedding of `ProcessedTxnBuffer.get`. -/
def ProcessedTxnBuffer.getRecord (b : ProcessedTxnBuffer) (txnId : String) :
    Option ProcessedTransactionRecord :=
  mapGet b.lookup txnId

/-- Embedding of `ProcessedTxnBuffer.listNewestFirst`: non-null slots in reverse insertion
order, reading slot `(cursor - 1 - i + size) % size` for `i = 0 .. size-1`. -/
def ProcessedTxnBuffer.listNewestFirst (b : ProcessedTxnBuffer) :
    List ProcessedTransactionRecord :=
  (List.range b.size).filterMap
    (fun i => b.buffer.getD ((b.cursor + b.size - 1 - i) % b.size) none)

/-! ### `applyIdempotentTransaction` (`packages/shared/src/txn.ts`) -/

/-- The `params` argument of `applyIdempotentTransaction`. -/
structure IdempotentTxnParams where
  txnId : String
  delta : Int
  actor : String
  source : EconomySource
  reason : Option String
  timestamp : Option Int
deriving DecidableEq, Repr

/-- The candidate record built by `applyIdempotentTransaction`:
`balanceAfter = currentBalance + delta`, `processedAt = timestamp ?? now`. -/
def candidateRecord (currentBalance : Int) (params : IdempotentTxnParams)
    (now : Int) : ProcessedTransactionRecord :=
  { txnId := params.txnId
    delta := params.delta
    balanceAfter := currentBalance + params.delta
    actor := params.actor
    source := params.source
    reason := params.reason
    processedAt := params.timestamp.getD now }

/-- Embedding of `applyIdempotentTransaction`.  `Date.now()` is passed explicitly as `now`;
the mutated buffer is returned alongside the `TransactionResult`. -/
def applyIdempotentTransaction (currentBalance : Int)
    (params : IdempotentTxnParams) (buffer : ProcessedTxnBuffer) (now : Int) :
    TransactionResult × ProcessedTxnBuffer :=
  let record := candidateRecord currentBalance params now
  let out := buffer.record record
  ({ balance := if out.1.1 then record.balanceAfter else currentBalance
     processed := out.1.1
     record := out.1.2 }, out.2)

/-! ### Folding sequences of operations -/

/-- Fold a sequence of `record` calls over a buffer. -/
def foldRecord (b : ProcessedTxnBuffer)
    (recs : List ProcessedTransactionRecord) : ProcessedTxnBuffer :=
  recs.foldl (fun s r => (s.record r).2) b

/-- Feed a command sequence through `applyIdempotentTransaction`, threading
the balance and the buffer (the session-owner loop of `updateEconomyProfile`
applied to an in-memory profile). -/
def applyFold (st : Int × ProcessedTxnBuffer) (cmds : List IdempotentTxnParams)
    (now : Int) : Int × ProcessedTxnBuffer :=
  cmds.foldl
    (fun st p =>
      let out := applyIdempotentTransaction st.1 p st.2 now
      (out.1.balance, out.2))
    st

/-- The per-apply results of feeding a command sequence through
`applyIdempotentTransaction`. -/
def applyTrace (b : Int) (s : ProcessedTxnBuffer) (now : Int) :
    List IdempotentTxnParams → List TransactionResult
  | [] => []
  | p :: rest =>
    let out := applyIdempotentTransaction b p s now
    out.1 :: applyTrace out.1.balance out.2 now rest

/-- Sum of `delta` over distinct `txnId`s, each txnId contributing the delta
of the first command that carries it (the reading of "the sum of `delta` over
all distinct `txnId`s ever applied" in the spec's conservation invariant). -/
def distinctFirstDeltaSum (cmds : List IdempotentTxnParams) : Int :=
  (((cmds.map (fun p => p.txnId)).dedup).map
    (fun t => ((cmds.find? (fun p => p.txnId == t)).map (fun p => p.delta)).getD 0)).sum

/-! ### Open Cloud client retry/backoff (`packages/opencloud`)

`withBackoff` is modelled as a pure loop over a per-attempt outcome function
`fn : Nat → List ℚ × Except E T`: attempt `i` produces the waits awaited
inside the attempt itself (the `Retry-After` sleep of `request`) and either a
value or a thrown error.  The simulation returns the final outcome, the
number of times the operation ran, and the chronological wait groups:
group `i` lists the waits between call `i` and call `i + 1` (the attempt's
internal waits, then — when another attempt follows — the backoff wait). -/

/-- The wait computed by `withBackoff` between attempts:
`baseDelay * 2 ** attempt + Math.random() * 100`; the sampled jitter values
are supplied as `jitter`. -/
def backoffWait (baseDelay : ℚ) (jitter : Nat → ℚ) (attempt : Nat) : ℚ :=
  baseDelay * 2 ^ attempt + jitter attempt

/-- The `withBackoff` loop body: `remaining = retries - attempt`, so
`remaining = 0` is the `attempt === opts.retries` break that surfaces the
last error; otherwise a failed attempt waits the backoff wait and retries. -/
def withBackoffLoop {E T : Type} (fn : Nat → List ℚ × Except E T)
    (baseDelay : ℚ) (jitter : Nat → ℚ) :
    Nat → Nat → Except E T × Nat × List (List ℚ)
  | attempt, 0 =>
    let step := fn attempt
    match step.2 with
    | Except.ok v => (Except.ok v, 1, [step.1])
    | Except.error e => (Except.error e, 1, [step.1])
  | attempt, r + 1 =>
    let step := fn attempt
    match step.2 with
    | Except.ok v => (Except.ok v, 1, [step.1])
    | Except.error _ =>
      let rest := withBackoffLoop fn baseDelay jitter (attempt + 1) r
      (rest.1, rest.2.1 + 1,
        (step.1 ++ [backoffWait baseDelay jitter attempt]) :: rest.2.2)

/-- Model of `withBackoff(fn, {retries, baseDelay})` starting from `attempt = 0`. -/
def withBackoff {E T : Type} (fn : Nat → List ℚ × Except E T) (retries : Nat)
    (baseDelay : ℚ) (jitter : Nat → ℚ) : Except E T × Nat × List (List ℚ) :=
  withBackoffLoop fn baseDelay jitter 0 retries

/-- An HTTP response as observed by `request`: the status code and the parsed
numeric value of the `Retry-After` header (absent/empty header is `none`). -/
structure HttpResponse where
  status : Nat
  retryAfter : Option ℚ
deriving DecidableEq, Repr

/-- One attempt of the function `request` passes to `withBackoff`.  On a 429
or 5xx status, `delayMs = Number(retryAfter) * 1000` is awaited when truthy
and the attempt throws; on any other non-2xx status the attempt throws
without waiting; otherwise the response is returned. -/
def requestAttempt (resp : HttpResponse) : List ℚ × Except Unit HttpResponse :=
  if resp.status = 429 ∨ 500 ≤ resp.status then
    (match resp.retryAfter.map (fun r => r * 1000) with
     | some delayMs => if delayMs ≠ 0 then [delayMs] else []
     | none => [], Except.error ())
  else if ¬ (200 ≤ resp.status ∧ resp.status < 300) then
    ([], Except.error ())
  else
    ([], Except.ok resp)

/-- The retrying `request` of the Open Cloud client over a trace of responses
(response `i` answers fetch number `i`); `retries` is `maxRetries` for
retryable requests and `0` when `retryable === false`. -/
def requestRun (responses : Nat → HttpResponse) (retries : Nat)
    (baseDelay : ℚ) (jitter : Nat → ℚ) :
    Except Unit HttpResponse × Nat × List (List ℚ) :=
  withBackoff (fun i => requestAttempt (responses i)) retries baseDelay jitter

/-! ### Audit sink service (`apps/api/src/index.ts`) -/

/-- Hex-nibble value of a character, written with its code point:
`0-9`, `a-f` and `A-F` (Node's hex decoder accepts both cases). -/
def hexNibble (c : Char) : Option Nat :=
  let n := c.toNat
  if 48 ≤ n ∧ n ≤ 57 then some (n - 48)
  else if 97 ≤ n ∧ n ≤ 102 then some (n - 97 + 10)
  else if 65 ≤ n ∧ n ≤ 70 then some (n - 65 + 10)
  else none

/-- A canonical lowercase hex digit (`0-9` or `a-f`), the only characters a
`crypto` hex digest emits. -/
def ValidLowerHex (c : Char) : Prop :=
  (48 ≤ c.toNat ∧ c.toNat ≤ 57) ∨ (97 ≤ c.toNat ∧ c.toNat ≤ 102)

instance (c : Char) : Decidable (ValidLowerHex c) := by
  unfold ValidLowerHex
  infer_instance

/-- Model of `Buffer.from(s, "hex")`: decode complete pairs of hex digits from the
left, stopping at the first invalid (or lone trailing) digit. -/
def hexDecodeList : List Char → List Nat
  | c1 :: c2 :: rest =>
    match hexNibble c1, hexNibble c2 with
    | some hi, some lo => (hi * 16 + lo) :: hexDecodeList rest
    | _, _ => []
  | _ => []

/-- Node `Buffer.from`-style hex decoding of a string. -/
def hexDecode (s : String) : List Nat :=
  hexDecodeList s.data

/-- Model of `crypto.timingSafeEqual`: throws (here `Except.error`) when the buffers
have different lengths, otherwise compares them. -/
def timingSafeEqual (a b : List Nat) : Except Unit Bool :=
  if a.length ≠ b.length then Except.error () else Except.ok (a == b)

/-- Embedding of `verifySignature(payload, signature?)` with the HMAC-SHA-256 lowercase
hex digest of `JSON.stringify(payload)` abstracted as `hmacHex`.  A falsy
(absent or empty) signature is rejected up front; the submitted signature is
lowercased, length-checked against the expected digest, and compared with
`timingSafeEqual` on the hex-decoded buffers, any throw yielding `false`. -/
def verifySignature {α : Type} (hmacHex : α → String) (payload : α)
    (signature : Option String) : Bool :=
  match signature with
  | none => false
  | some s =>
    if s == "" then false
    else
      let expected := hmacHex payload
      let normalized := s.toLower
      if expected.length ≠ normalized.length then false
      else
        match timingSafeEqual (hexDecode normalized) (hexDecode expected) with
        | Except.ok b => b
        | Except.error _ => false

/-- The `payload` field of an `economy.update` broadcast
(`EconomyEventBroadcast["payload"]` in `types.ts`). -/
structure EconomyEventPayload where
  txnId : String
  userId : String
  delta : Int
  balance : Int
  actor : String
  source : EconomySource
  reason : Option String
  occurredAt : String
deriving DecidableEq, Repr

/-- A persisted audit row (`auditLog`); `createdAt` is a server-set database
default outside this model. -/
structure AuditLogRow where
  txnId : String
  userId : String
  delta : Int
  actor : String
  source : EconomySource
  reason : Option String
deriving DecidableEq, Repr

/-- The database touched by the webhook: the `webhookDelivery` table (unique
`key` → `payloadHash`) and the `auditLog` table. -/
structure ApiDb where
  deliveries : List (String × String)
  audits : List AuditLogRow
deriving DecidableEq, Repr

/-- A response body of `POST /log/transactions`: an error object or an
`ApiTransactionLogResponse`. -/
inductive ApiBody where
  | errorMsg (error : String)
  | accepted (deduped : Bool)
deriving DecidableEq, Repr

/-- A `POST /log/transactions` request: the `X-Signature` and
`Idempotency-Key` headers and the JSON body fields the handler reads. -/
structure LogRequest where
  sigHeader : Option String
  keyHeader : Option String
  bodyPayload : Option EconomyEventPayload
  bodySignature : Option String
  bodyIdempotencyKey : Option String
deriving DecidableEq, Repr

/-- JS `a ?? b` on possibly-absent strings. -/
def jsCoalesce (a b : Option String) : Option String :=
  match a with
  | some s => some s
  | none => b

/-- JS falsiness of a possibly-absent string (`undefined` or `""`). -/
def strFalsy : Option String → Bool
  | none => true
  | some s => s == ""

/-- The audit row the handler's `auditLog.upsert` creates for a payload. -/
def auditRowOf (payload : EconomyEventPayload) : AuditLogRow :=
  { txnId := payload.txnId
    userId := payload.userId
    delta := payload.delta
    actor := payload.actor
    source := payload.source
    reason := payload.reason }

/-- The `POST /log/transactions` handler (with `hashPayload` abstracted as
`shaHex`), returning HTTP status, body and the database after the request.
The conflict branch throws `Error("Idempotency key conflict")`, which rolls
back the transaction and reaches the centralised error middleware: the
response is `500 {error: "internal_error"}` with the database unchanged. -/
def postLogTransactions (hmacHex shaHex : EconomyEventPayload → String)
    (req : LogRequest) (db : ApiDb) : Nat × ApiBody × ApiDb :=
  let signature := jsCoalesce req.sigHeader req.bodySignature
  let idempotencyKey := jsCoalesce req.keyHeader req.bodyIdempotencyKey
  match req.bodyPayload with
  | none => (400, ApiBody.errorMsg "payload is required", db)
  | some payload =>
    if ¬ verifySignature hmacHex payload signature then
      (401, ApiBody.errorMsg "invalid signature", db)
    else if strFalsy idempotencyKey then
      (400, ApiBody.errorMsg "Idempotency-Key header required", db)
    else
      let key := idempotencyKey.getD ""
      let payloadHash := shaHex payload
      match mapGet db.deliveries key with
      | some existingHash =>
        if existingHash == payloadHash then (200, ApiBody.accepted true, db)
        else (500, ApiBody.errorMsg "internal_error", db)
      | none =>
        (200, ApiBody.accepted false,
          { deliveries := db.deliveries ++ [(key, payloadHash)]
            audits :=
              if (db.audits.find? (fun r => r.txnId == payload.txnId)).isSome
              then db.audits
              else db.audits ++ [auditRowOf payload] })

/-! ### Concrete inputs used by witnesses and counterexamples -/

/-- Command `Ti` with delta `+1` (the S3 scenario commands). -/
def mkCmd (i : Nat) : IdempotentTxnParams :=
  { txnId := "T" ++ toString i
    delta := 1
    actor := "admin"
    source := EconomySource.discord
    reason := none
    timestamp := none }

/-- A replay envelope for `T1` carrying a different delta. -/
def cmdReplay : IdempotentTxnParams :=
  { txnId := "T" ++ toString 1
    delta := 5
    actor := "admin2"
    source := EconomySource.game
    reason := none
    timestamp := none }

/-- The S3 command sequence `T1 .. T65`, each with delta `+1`. -/
def cmds65 : List IdempotentTxnParams :=
  (List.range 65).map (fun i => mkCmd (i + 1))

/-- S3 followed by a replay of the evicted `T1`. -/
def cmds66 : List IdempotentTxnParams :=
  cmds65 ++ [mkCmd 1]

/-- Concrete processed record `Ti+1` for ring-buffer witnesses. -/
def sampleRecord (i : Nat) : ProcessedTransactionRecord :=
  { txnId := "T" ++ toString (i + 1)
    delta := 1
    balanceAfter := (i : Int) + 1
    actor := "admin"
    source := EconomySource.discord
    processedAt := 0
    reason := none }

/-- A stand-in HMAC digest function used in concrete webhook runs. -/
def hmacConst : EconomyEventPayload → String := fun _ => "aa"

/-- A stand-in payload-hash function that distinguishes payloads by txnId. -/
def shaTxn : EconomyEventPayload → String := fun p => p.txnId

/-- A concrete `economy.update` payload. -/
def mkPayload (txnId : String) : EconomyEventPayload :=
  { txnId := txnId
    userId := "U1"
    delta := 10
    balance := 10
    actor := "admin"
    source := EconomySource.discord
    reason := none
    occurredAt := "2024-01-01T00:00:00Z" }

/-- First webhook request: payload `A`, signature and key supplied. -/
def reqPost1 : LogRequest :=
  { sigHeader := some "aa"
    keyHeader := some "K"
    bodyPayload := some (mkPayload "A")
    bodySignature := none
    bodyIdempotencyKey := none }

/-- Second webhook request: same idempotency key, different payload. -/
def reqPost2 : LogRequest :=
  { sigHeader := some "aa"
    keyHeader := some "K"
    bodyPayload := some (mkPayload "B")
    bodySignature := none
    bodyIdempotencyKey := none }

/-- A webhook request with a payload but no signature and no key anywhere. -/
def reqNoKeyNoSig : LogRequest :=
  { sigHeader := none
    keyHeader := none
    bodyPayload := some (mkPayload "A")
    bodySignature := none
    bodyIdempotencyKey := none }

/-- An empty webhook database. -/
def emptyDb : ApiDb := { deliveries := [], audits := [] }

/-- The database after the first webhook POST (`reqPost1` on `emptyDb`). -/
def dbAfterPost1 : ApiDb :=
  { deliveries := [("K", "A")], audits := [auditRowOf (mkPayload "A")] }

/-- A fixed 64-character lowercase hex digest. -/
def expectedHex : String :=
  "0123456789abcdef0123456789abcdef0123456789abcdef0123456789abcdef"

/-- The same digest submitted in uppercase hex. -/
def expectedHexUpper : String :=
  "0123456789ABCDEF0123456789ABCDEF0123456789ABCDEF0123456789ABCDEF"

/-- An HMAC stand-in returning `expectedHex` for every payload. -/
def hmacFixed : Unit → String := fun _ => expectedHex

/-- A trace of permanently-503 responses advertising `Retry-After: 1`. -/
def resp503 : Nat → HttpResponse := fun _ => { status := 503, retryAfter := some 1 }

/-- An always-failing attempt function whose error names the attempt index. -/
def failFn : Nat → List ℚ × Except Nat Unit := fun i => ([], Except.error i)

/-- Zero jitter (a possible sampling of `Math.random() * 100`). -/
def zeroJitter : Nat → ℚ := fun _ => 0

/-! ### Helper lemmas about the `Map` embedding and `record` -/

/-- Replacing the value of a present key leaves `find?` at that key pointing
at the replaced entry. -/
theorem find?_map_replace {R : Type} (m : List (String × R)) (k : String) (v : R)
    (h : (m.find? (fun e => e.1 == k)).isSome = true) :
    (m.map (fun e => if e.1 == k then (k, v) else e)).find? (fun e => e.1 == k)
      = some (k, v) := by
  induction m with
  | nil => simp at h
  | cons a t ih =>
    cases ha : (a.1 == k) with
    | true =>
      simp only [List.map_cons, if_pos ha]
      exact List.find?_cons_of_pos _ (by simp)
    | false =>
      simp only [List.find?_cons, ha] at h
      simp only [List.map_cons, List.find?_cons]
      simpa [ha] using ih h

/-- Reading `Map.get` after `Map.set` at the same key. -/
theorem mapGet_mapSet_self {R : Type} (m : List (String × R)) (k : String) (v : R) :
    mapGet (mapSet m k v) k = some v := by
  unfold mapGet mapSet
  by_cases h : (m.find? (fun e => e.1 == k)).isSome
  · rw [if_pos h, find?_map_replace m k v h]
    rfl
  · rw [if_neg h, List.find?_append]
    rw [Option.not_isSome_iff_eq_none] at h
    rw [h]
    simp

/-- Calling `record` on an already-seen txnId returns the existing record and leaves
the buffer untouched. -/
theorem record_seen (b : ProcessedTxnBuffer) (txn ex : ProcessedTransactionRecord)
    (h : mapGet b.lookup txn.txnId = some ex) :
    b.record txn = ((false, ex), b) := by
  unfold ProcessedTxnBuffer.record
  rw [h]

/-- Calling `record` on a fresh txnId inserts. -/
theorem record_new (b : ProcessedTxnBuffer) (txn : ProcessedTransactionRecord)
    (h : mapGet b.lookup txn.txnId = none) :
    b.record txn = ((true, txn), b.insertFresh txn) := by
  unfold ProcessedTxnBuffer.record
  rw [h]

/-- After an insert, the inserted txnId is indexed. -/
theorem mapGet_insertFresh_self (b : ProcessedTxnBuffer)
    (txn : ProcessedTransactionRecord) :
    mapGet (b.insertFresh txn).lookup txn.txnId = some txn :=
  mapGet_mapSet_self _ _ _

/-- Applying `applyIdempotentTransaction` on a seen txnId: balance kept, `processed`
false, the existing record returned, the buffer unchanged. -/
theorem apply_seen (b : Int) (p : IdempotentTxnParams) (s : ProcessedTxnBuffer)
    (now : Int) (ex : ProcessedTransactionRecord)
    (h : mapGet s.lookup p.txnId = some ex) :
    applyIdempotentTransaction b p s now
      = ({ balance := b, processed := false, record := ex }, s) := by
  unfold applyIdempotentTransaction
  simp only [record_seen s (candidateRecord b p now) ex h]
  simp

/-- Applying `applyIdempotentTransaction` on a fresh txnId: the candidate is inserted
and its `balanceAfter` returned. -/
theorem apply_new (b : Int) (p : IdempotentTxnParams) (s : ProcessedTxnBuffer)
    (now : Int) (h : mapGet s.lookup p.txnId = none) :
    applyIdempotentTransaction b p s now
      = ({ balance := b + p.delta, processed := true, record := candidateRecord b p now },
         s.insertFresh (candidateRecord b p now)) := by
  unfold applyIdempotentTransaction
  simp only [record_new s (candidateRecord b p now) h]
  simp [candidateRecord]

/-! ### C1 — idempotence of the applier -/

/-- C1: for every balance, buffer state and command, applying
`applyIdempotentTransaction` twice with the same `txnId` (the replay may
carry a different delta, actor or timestamp) yields the same balance and the
same ring contents as applying it once, and the second apply returns
`processed = false`. -/
theorem applyIdempotentTransaction_idempotent (b : Int) (s : ProcessedTxnBuffer)
    (p q : IdempotentTxnParams) (now now' : Int) (h : q.txnId = p.txnId) :
    ((applyIdempotentTransaction (applyIdempotentTransaction b p s now).1.balance q
        (applyIdempotentTransaction b p s now).2 now').1.balance
      = (applyIdempotentTransaction b p s now).1.balance)
    ∧ ((applyIdempotentTransaction (applyIdempotentTransaction b p s now).1.balance q
        (applyIdempotentTransaction b p s now).2 now').2
      = (applyIdempotentTransaction b p s now).2)
    ∧ ((applyIdempotentTransaction (applyIdempotentTransaction b p s now).1.balance q
        (applyIdempotentTransaction b p s now).2 now').1.processed = false) := by
  cases hc : mapGet s.lookup p.txnId with
  | some ex =>
    rw [apply_seen b p s now ex hc]
    have h2 : mapGet s.lookup q.txnId = some ex := by rw [h]; exact hc
    rw [apply_seen _ q s now' ex h2]
    exact ⟨rfl, rfl, rfl⟩
  | none =>
    rw [apply_new b p s now hc]
    have h2 : mapGet (s.insertFresh (candidateRecord b p now)).lookup q.txnId
        = some (candidateRecord b p now) := by
      rw [h]; exact mapGet_insertFresh_self s (candidateRecord b p now)
    rw [apply_seen _ q _ now' _ h2]
    exact ⟨rfl, rfl, rfl⟩

/-- Witness for C1 at balance 0, a fresh 64-slot buffer, command `T1` and a
replay of `T1` with a different delta. -/
theorem applyIdempotentTransaction_idempotent_witness :
    (cmdReplay.txnId = (mkCmd 1).txnId)
    ∧ ((applyIdempotentTransaction
          (applyIdempotentTransaction 0 (mkCmd 1) (ProcessedTxnBuffer.fresh 64) 0).1.balance
          cmdReplay
          (applyIdempotentTransaction 0 (mkCmd 1) (ProcessedTxnBuffer.fresh 64) 0).2
          0).1.processed = false) :=
  ⟨rfl, (applyIdempotentTransaction_idempotent 0 (ProcessedTxnBuffer.fresh 64)
      (mkCmd 1) cmdReplay 0 0 rfl).2.2⟩

/-! ### C2 — the applier's algorithm and first-writer-wins -/

/-- C2: `applyIdempotentTransaction` builds a candidate record with
`balanceAfter = currentBalance + delta` and records it; on a seen txnId it
returns the current balance, `processed = false` and the existing record
with no mutation; on a fresh txnId it returns the candidate's `balanceAfter`,
`processed = true` and the candidate; and on a replay the returned record is
the first writer's candidate even when the replay's delta differs. -/
theorem applyIdempotentTransaction_algorithm (b : Int) (s : ProcessedTxnBuffer)
    (p q : IdempotentTxnParams) (now now' : Int) :
    ((candidateRecord b p now).balanceAfter = b + p.delta)
    ∧ (∀ ex, mapGet s.lookup p.txnId = some ex →
        applyIdempotentTransaction b p s now
          = ({ balance := b, processed := false, record := ex }, s))
    ∧ (mapGet s.lookup p.txnId = none →
        applyIdempotentTransaction b p s now
          = ({ balance := (candidateRecord b p now).balanceAfter, processed := true,
               record := candidateRecord b p now },
             s.insertFresh (candidateRecord b p now)))
    ∧ (mapGet s.lookup p.txnId = none → q.txnId = p.txnId →
        (applyIdempotentTransaction (applyIdempotentTransaction b p s now).1.balance q
          (applyIdempotentTransaction b p s now).2 now').1.record
          = candidateRecord b p now) := by
  refine ⟨rfl, fun ex hex => apply_seen b p s now ex hex,
    fun hnone => apply_new b p s now hnone, fun hnone heq => ?_⟩
  rw [apply_new b p s now hnone]
  have h2 : mapGet (s.insertFresh (candidateRecord b p now)).lookup q.txnId
      = some (candidateRecord b p now) := by
    rw [heq]; exact mapGet_insertFresh_self s (candidateRecord b p now)
  rw [apply_seen _ q _ now' _ h2]

/-- Witness for C2: a fresh `T1` on an empty 64-slot buffer, then a replay of
`T1` with delta 5; the returned record is the first writer's candidate. -/
theorem applyIdempotentTransaction_algorithm_witness :
    (mapGet (ProcessedTxnBuffer.fresh 64).lookup (mkCmd 1).txnId = none)
    ∧ (cmdReplay.txnId = (mkCmd 1).txnId)
    ∧ ((applyIdempotentTransaction
          (applyIdempotentTransaction 0 (mkCmd 1) (ProcessedTxnBuffer.fresh 64) 0).1.balance
          cmdReplay
          (applyIdempotentTransaction 0 (mkCmd 1) (ProcessedTxnBuffer.fresh 64) 0).2
          0).1.record = candidateRecord 0 (mkCmd 1) 0) :=
  ⟨rfl, rfl,
    (applyIdempotentTransaction_algorithm 0 (ProcessedTxnBuffer.fresh 64)
      (mkCmd 1) cmdReplay 0 0).2.2.2 rfl rfl⟩

/-! ### Ring-buffer structure lemmas for C3/C4 -/

/-- Reading `Map.get` after deleting that key gives `none`. -/
theorem mapGet_mapDelete_self {R : Type} (m : List (String × R)) (k : String) :
    mapGet (mapDelete m k) k = none := by
  unfold mapGet mapDelete
  rw [List.find?_eq_none.mpr]
  · rfl
  · intro x hx
    rw [List.mem_filter] at hx
    simpa using hx.2

/-- Folding `record` distributes over list append. -/
theorem foldRecord_append (b : ProcessedTxnBuffer)
    (l1 l2 : List ProcessedTransactionRecord) :
    foldRecord b (l1 ++ l2) = foldRecord (foldRecord b l1) l2 := by
  unfold foldRecord
  exact List.foldl_append _ _ _ _

/-- Calling `record` never changes the capacity. -/
theorem record_size (b : ProcessedTxnBuffer) (txn : ProcessedTransactionRecord) :
    ((b.record txn).2).size = b.size := by
  unfold ProcessedTxnBuffer.record
  cases h : mapGet b.lookup txn.txnId <;> simp [h, ProcessedTxnBuffer.insertFresh]

/-- Folding `record` never changes the capacity. -/
theorem foldRecord_size (recs : List ProcessedTransactionRecord) :
    ∀ b : ProcessedTxnBuffer, (foldRecord b recs).size = b.size := by
  induction recs with
  | nil => intro b; rfl
  | cons x t ih =>
    intro b
    unfold foldRecord at ih ⊢
    rw [List.foldl_cons, ih]
    exact record_size b x

/-- The `listNewestFirst` view never returns more than `size` records. -/
theorem listNewestFirst_length_le (b : ProcessedTxnBuffer) :
    b.listNewestFirst.length ≤ b.size := by
  unfold ProcessedTxnBuffer.listNewestFirst
  exact le_trans (List.length_filterMap_le _ _) (le_of_eq (List.length_range _))

/-- A `filterMap` over `range n` of an everywhere-`some` function is a `map`. -/
theorem filterMap_range_eq_map {α : Type} (n : Nat) (f : Nat → Option α)
    (g : Nat → α) (h : ∀ i, i < n → f i = some (g i)) :
    (List.range n).filterMap f = (List.range n).map g := by
  induction n with
  | zero => rfl
  | succ n ih =>
    rw [List.range_succ, List.filterMap_append, List.map_append,
      ih (fun i hi => h i (Nat.lt_succ_of_lt hi))]
    simp [h n (Nat.lt_succ_self n)]

/-- Folding `k ≤ size` records with pairwise-distinct txnIds into a fresh
buffer fills the first `k` slots in order, leaves the rest empty, puts the
cursor at `k % size` and indexes exactly the folded records. -/
theorem foldRecord_range_fresh (r : Nat → ProcessedTransactionRecord)
    (size k : Nat) (hk : k ≤ size)
    (hinj : ∀ i, i < k → ∀ j, j < k → i ≠ j → (r i).txnId ≠ (r j).txnId) :
    foldRecord (ProcessedTxnBuffer.fresh size) ((List.range k).map r)
      = { buffer := (List.range k).map (fun i => some (r i))
            ++ List.replicate (size - k) none
          size := size
          cursor := k % size
          lookup := (List.range k).map (fun i => ((r i).txnId, r i)) } := by
  induction k with
  | zero => simp [foldRecord, ProcessedTxnBuffer.fresh]
  | succ k ih =>
    have hklt : k < size := hk
    have hkmod : k % size = k := Nat.mod_eq_of_lt hklt
    have ihs := ih (Nat.le_of_succ_le hk)
      (fun i hi j hj hne => hinj i (Nat.lt_succ_of_lt hi) j (Nat.lt_succ_of_lt hj) hne)
    rw [List.range_succ, List.map_append, foldRecord_append, ihs]
    simp only [foldRecord, List.map_cons, List.map_nil, List.foldl_cons, List.foldl_nil]
    have hfind : List.find? (fun e => e.1 == (r k).txnId)
        ((List.range k).map (fun i => ((r i).txnId, r i))) = none := by
      rw [List.find?_eq_none]
      intro x hx
      simp only [List.mem_map, List.mem_range] at hx
      obtain ⟨i, hi, rfl⟩ := hx
      simp only [beq_iff_eq]
      exact hinj i (Nat.lt_succ_of_lt hi) k (Nat.lt_succ_self k) (Nat.ne_of_lt hi)
    have hnone : mapGet ((List.range k).map (fun i => ((r i).txnId, r i)))
        (r k).txnId = none := by
      unfold mapGet
      rw [hfind]
      rfl
    rw [record_new _ _ hnone]
    unfold ProcessedTxnBuffer.insertFresh
    have hdisp : ((List.range k).map (fun i => some (r i))
        ++ List.replicate (size - k) none).getD (k % size) none = none := by
      rw [hkmod, List.getD_eq_getElem?_getD,
        List.getElem?_append_right (by simp)]
      simp only [List.length_map, List.length_range]
      rw [Nat.sub_self, List.getElem?_replicate]
      rw [if_pos (by omega)]
      rfl
    have hset : (((List.range k).map (fun i => some (r i))
          ++ List.replicate (size - k) none).set (k % size) (some (r k)))
        = (List.range (k + 1)).map (fun i => some (r i))
          ++ List.replicate (size - (k + 1)) none := by
      rw [hkmod, List.set_append_right _ _ (by simp)]
      simp only [List.length_map, List.length_range, Nat.sub_self]
      have hrep : size - k = (size - (k + 1)) + 1 := by omega
      rw [hrep, List.replicate_succ, List.set_cons_zero, List.range_succ,
        List.map_append, List.append_assoc]
      rfl
    have hsetmap : mapSet ((List.range k).map (fun i => ((r i).txnId, r i)))
        (r k).txnId (r k)
        = (List.range (k + 1)).map (fun i => ((r i).txnId, r i)) := by
      unfold mapSet
      rw [hfind]
      simp [List.range_succ]
    simp only [hdisp, hset]
    rw [ProcessedTxnBuffer.mk.injEq]
    exact ⟨by rw [List.range_succ], rfl, by rw [hkmod], by rw [hsetmap, List.range_succ]⟩

/-- Recording a 65th distinct record into a full 64-slot buffer evicts the
oldest record: slot 0 is overwritten, the cursor moves to 1, and the index
drops the oldest txnId and gains the newest. -/
theorem foldRecord_evict65 (r : Nat → ProcessedTransactionRecord)
    (hinj : ∀ i, i < 65 → ∀ j, j < 65 → i ≠ j → (r i).txnId ≠ (r j).txnId) :
    foldRecord (ProcessedTxnBuffer.fresh 64) ((List.range 65).map r)
      = { buffer := ((List.range 64).map (fun i => some (r i))).set 0 (some (r 64))
          size := 64
          cursor := 1
          lookup := mapDelete ((List.range 64).map (fun i => ((r i).txnId, r i)))
              (r 0).txnId ++ [((r 64).txnId, r 64)] } := by
  have h64 := foldRecord_range_fresh r 64 64 (le_refl 64)
    (fun i hi j hj hne => hinj i (Nat.lt_succ_of_lt hi) j (Nat.lt_succ_of_lt hj) hne)
  rw [show (65 : Nat) = 64 + 1 from rfl, List.range_succ, List.map_append,
    foldRecord_append, h64]
  simp only [foldRecord, List.map_cons, List.map_nil, List.foldl_cons, List.foldl_nil]
  have hfind : List.find? (fun e => e.1 == (r 64).txnId)
      ((List.range 64).map (fun i => ((r i).txnId, r i))) = none := by
    rw [List.find?_eq_none]
    intro x hx
    simp only [List.mem_map, List.mem_range] at hx
    obtain ⟨i, hi, rfl⟩ := hx
    simp only [beq_iff_eq]
    exact hinj i (Nat.lt_succ_of_lt hi) 64 (Nat.lt_succ_self 64) (Nat.ne_of_lt hi)
  have hnone : mapGet ((List.range 64).map (fun i => ((r i).txnId, r i)))
      (r 64).txnId = none := by
    unfold mapGet
    rw [hfind]
    rfl
  rw [record_new _ _ hnone]
  unfold ProcessedTxnBuffer.insertFresh
  have hdisp : (((List.range 64).map (fun i => some (r i)))
      ++ List.replicate (64 - 64) none).getD (64 % 64) none = some (r 0) := by
    rw [Nat.sub_self, List.replicate_zero, List.append_nil, Nat.mod_self,
      List.getD_eq_getElem?_getD, List.getElem?_map, List.getElem?_range (by omega)]
    rfl
  have hfind1 : List.find? (fun e => e.1 == (r 64).txnId)
      (mapDelete ((List.range 64).map (fun i => ((r i).txnId, r i))) (r 0).txnId)
      = none := by
    rw [List.find?_eq_none]
    intro x hx
    unfold mapDelete at hx
    rw [List.mem_filter] at hx
    have hx1 := hx.1
    simp only [List.mem_map, List.mem_range] at hx1
    obtain ⟨i, hi, rfl⟩ := hx1
    simp only [beq_iff_eq]
    exact hinj i (Nat.lt_succ_of_lt hi) 64 (Nat.lt_succ_self 64) (Nat.ne_of_lt hi)
  have hsetmap : mapSet
      (mapDelete ((List.range 64).map (fun i => ((r i).txnId, r i))) (r 0).txnId)
      (r 64).txnId (r 64)
      = mapDelete ((List.range 64).map (fun i => ((r i).txnId, r i))) (r 0).txnId
        ++ [((r 64).txnId, r 64)] := by
    unfold mapSet
    rw [hfind1]
    simp
  simp only [hdisp]
  rw [ProcessedTxnBuffer.mk.injEq]
  refine ⟨?_, rfl, ?_, ?_⟩
  · rw [Nat.sub_self, List.replicate_zero, List.append_nil, Nat.mod_self]
  · rw [Nat.mod_self]
  · exact hsetmap

/-- After 65 distinct records hit a fresh 64-slot buffer, the live records,
newest first, are exactly records 64 down to 1. -/
theorem listNewestFirst_evict65 (r : Nat → ProcessedTransactionRecord)
    (hinj : ∀ i, i < 65 → ∀ j, j < 65 → i ≠ j → (r i).txnId ≠ (r j).txnId) :
    (foldRecord (ProcessedTxnBuffer.fresh 64) ((List.range 65).map r)).listNewestFirst
      = (List.range 64).map (fun i => r (64 - i)) := by
  rw [foldRecord_evict65 r hinj]
  unfold ProcessedTxnBuffer.listNewestFirst
  apply filterMap_range_eq_map
  intro i hi
  have hi64 : i < 64 := hi
  clear hi
  by_cases h0 : i = 0
  · subst h0
    have hidx : (1 + 64 - 1 - 0) % 64 = 0 := by norm_num
    rw [List.getD_eq_getElem?_getD, hidx,
      List.getElem?_set_self (by simp)]
    rfl
  · have hidx : (1 + 64 - 1 - i) % 64 = 64 - i := by omega
    rw [List.getD_eq_getElem?_getD, hidx,
      List.getElem?_set_ne (by omega), List.getElem?_map,
      List.getElem?_range (by omega : 64 - i < 64)]
    rfl

/-- After 65 distinct records hit a fresh 64-slot buffer, the first record's
txnId has been evicted from the index. -/
theorem evict65_oldest_gone (r : Nat → ProcessedTransactionRecord)
    (hinj : ∀ i, i < 65 → ∀ j, j < 65 → i ≠ j → (r i).txnId ≠ (r j).txnId) :
    mapGet (foldRecord (ProcessedTxnBuffer.fresh 64) ((List.range 65).map r)).lookup
      (r 0).txnId = none := by
  rw [foldRecord_evict65 r hinj]
  unfold mapGet
  rw [List.find?_append]
  have h1 : List.find? (fun e => e.1 == (r 0).txnId)
      (mapDelete ((List.range 64).map (fun i => ((r i).txnId, r i))) (r 0).txnId)
      = none := by
    rw [List.find?_eq_none]
    intro x hx
    unfold mapDelete at hx
    rw [List.mem_filter] at hx
    simpa using hx.2
  have h2 : List.find? (fun e => e.1 == (r 0).txnId) [((r 64).txnId, r 64)]
      = none := by
    rw [List.find?_eq_none]
    intro x hx
    simp only [List.mem_singleton] at hx
    subst hx
    simp only [beq_iff_eq]
    exact hinj 64 (by omega) 0 (by omega) (by omega)
  rw [h1, h2]
  rfl

/-! ### C3 — ring bound and FIFO eviction -/

/-- C3: for every sequence of `record` calls on a capacity-64 buffer the
number of stored records never exceeds 64; and when a 65th distinct txnId is
recorded, the oldest record is evicted and the buffer retains exactly the
latest 64 distinct txnIds (newest first). -/
theorem ring_bound_and_eviction :
    (∀ recs : List ProcessedTransactionRecord,
      ((foldRecord (ProcessedTxnBuffer.fresh 64) recs).listNewestFirst).length ≤ 64)
    ∧ (∀ r : Nat → ProcessedTransactionRecord,
      (∀ i, i < 65 → ∀ j, j < 65 → i ≠ j → (r i).txnId ≠ (r j).txnId) →
      (foldRecord (ProcessedTxnBuffer.fresh 64) ((List.range 65).map r)).listNewestFirst
          = (List.range 64).map (fun i => r (64 - i))
        ∧ mapGet (foldRecord (ProcessedTxnBuffer.fresh 64)
            ((List.range 65).map r)).lookup (r 0).txnId = none) := by
  constructor
  · intro recs
    have h := listNewestFirst_length_le (foldRecord (ProcessedTxnBuffer.fresh 64) recs)
    rwa [foldRecord_size recs (ProcessedTxnBuffer.fresh 64)] at h
  · intro r hinj
    exact ⟨listNewestFirst_evict65 r hinj, evict65_oldest_gone r hinj⟩

/-- Witness for C3 at the concrete records `T1 .. T65`. -/
theorem ring_bound_and_eviction_witness :
    (∀ i, i < 65 → ∀ j, j < 65 → i ≠ j →
      (sampleRecord i).txnId ≠ (sampleRecord j).txnId)
    ∧ mapGet (foldRecord (ProcessedTxnBuffer.fresh 64)
        ((List.range 65).map sampleRecord)).lookup (sampleRecord 0).txnId = none :=
  ⟨by decide, (ring_bound_and_eviction.2 sampleRecord (by decide)).2⟩

/-! ### C4 — the S3 eviction scenario -/

set_option maxRecDepth 400000 in
set_option maxHeartbeats 2000000 in
/-- C4: from balance 0 and an empty capacity-64 ring, applying the 65
distinct commands `T1 .. T65` (each delta +1) yields balance 65 with the
ring holding exactly `T2 .. T65`; replaying the evicted `T1` re-applies
(`processed = true`), giving balance 66 with `T1` re-inserted and `T2`
evicted. -/
theorem s3_ring_eviction_scenario :
    (let st65 := applyFold (0, ProcessedTxnBuffer.fresh 64) cmds65 0
     let replay := applyIdempotentTransaction st65.1 (mkCmd 1) st65.2 0
     st65.1 = 65
     ∧ st65.2.listNewestFirst.map (fun t => t.txnId)
         = (List.range 64).map (fun i => "T" ++ toString (65 - i))
     ∧ replay.1.processed = true
     ∧ replay.1.balance = 66
     ∧ mapGet replay.2.lookup ("T" ++ toString 1)
         = some (candidateRecord 65 (mkCmd 1) 0)
     ∧ mapGet replay.2.lookup ("T" ++ toString 2) = none) := by
  decide

/-! ### C5 — conservation of balance -/

/-- C5 (amended): the balance after feeding any command sequence through the
applier equals the starting balance plus the sum of the deltas of exactly
the applies that were processed (`processed = true`) — a txnId replayed
after eviction is counted once per processed apply, not once overall. -/
theorem balance_conservation (cmds : List IdempotentTxnParams) :
    ∀ (b : Int) (s : ProcessedTxnBuffer) (now : Int),
      (applyFold (b, s) cmds now).1
        = b + (((applyTrace b s now cmds).filter (fun t => t.processed)).map
            (fun t => t.record.delta)).sum := by
  induction cmds with
  | nil => intro b s now; simp [applyFold, applyTrace]
  | cons p rest ih =>
    intro b s now
    simp only [applyFold, List.foldl_cons, applyTrace]
    cases hc : mapGet s.lookup p.txnId with
    | some ex =>
      rw [apply_seen b p s now ex hc]
      have hrec := ih b s now
      simp only [applyFold] at hrec
      simpa using hrec
    | none =>
      rw [apply_new b p s now hc]
      have hrec := ih (b + p.delta) (s.insertFresh (candidateRecord b p now)) now
      simp only [applyFold, candidateRecord] at hrec
      simp only [List.filter_cons, candidateRecord]
      simp [hrec]
      ring

set_option maxRecDepth 400000 in
set_option maxHeartbeats 2000000 in
/-- C5 counterexample: after `T1 .. T65` (each +1) and a replay of the
evicted `T1`, the balance is 66 but the sum of delta over all distinct
txnIds ever applied is 65 — the claimed conservation equality fails. -/
theorem balance_conservation_counterexample :
    (applyFold (0, ProcessedTxnBuffer.fresh 64) cmds66 0).1 = 66
    ∧ distinctFirstDeltaSum cmds66 = 65
    ∧ (applyFold (0, ProcessedTxnBuffer.fresh 64) cmds66 0).1
        ≠ distinctFirstDeltaSum cmds66 := by
  decide

/-! ### Backoff loop lemmas (C8/C9) -/

/-- Every run of the backoff loop performs at least one call. -/
theorem withBackoffLoop_calls_pos {E T : Type} (fn : Nat → List ℚ × Except E T)
    (baseDelay : ℚ) (jitter : Nat → ℚ) (a rem : Nat) :
    1 ≤ (withBackoffLoop fn baseDelay jitter a rem).2.1 := by
  cases rem with
  | zero =>
    unfold withBackoffLoop
    cases h : (fn a).2 <;> simp [h]
  | succ r =>
    unfold withBackoffLoop
    cases h : (fn a).2 <;> simp [h]

/-- The backoff loop performs at most `remaining + 1` calls. -/
theorem withBackoffLoop_calls_le {E T : Type} (fn : Nat → List ℚ × Except E T)
    (baseDelay : ℚ) (jitter : Nat → ℚ) :
    ∀ rem a, (withBackoffLoop fn baseDelay jitter a rem).2.1 ≤ rem + 1 := by
  intro rem
  induction rem with
  | zero =>
    intro a
    unfold withBackoffLoop
    cases h : (fn a).2 <;> simp [h]
  | succ r ih =>
    intro a
    unfold withBackoffLoop
    cases h : (fn a).2 with
    | ok v => simp [h]
    | error e =>
      simp only [h]
      have := ih (a + 1)
      omega

/-- A run in which every attempt throws: the operation executes exactly
`remaining + 1` times, the error of the final attempt is surfaced, and the
wait between call `t` and call `t + 1` is exactly the backoff wait of
attempt `t`. -/
theorem withBackoffLoop_fail {E T : Type} (fn : Nat → List ℚ × Except E T)
    (baseDelay : ℚ) (jitter : Nat → ℚ) (errf : Nat → E)
    (hfail : ∀ i, fn i = ([], Except.error (errf i))) :
    ∀ rem a, withBackoffLoop fn baseDelay jitter a rem
      = (Except.error (errf (a + rem)), rem + 1,
         (List.range rem).map (fun t => [backoffWait baseDelay jitter (a + t)]) ++ [[]]) := by
  intro rem
  induction rem with
  | zero =>
    intro a
    unfold withBackoffLoop
    rw [hfail a]
    simp
  | succ rm ih =>
    intro a
    unfold withBackoffLoop
    rw [hfail a]
    simp only []
    rw [ih (a + 1)]
    refine Prod.ext ?_ (Prod.ext rfl ?_)
    · rw [show a + 1 + rm = a + (rm + 1) from by omega]
    · simp only [List.nil_append, List.range_succ_eq_map, List.map_cons,
        List.map_map, List.cons_append]
      rw [List.cons.injEq]
      refine ⟨by rw [Nat.add_zero], ?_⟩
      refine congrArg (fun l => l ++ [[]]) ?_
      apply List.map_congr_left
      intro t _
      simp only [Function.comp]
      rw [List.cons.injEq]
      exact ⟨by rw [show a + 1 + t = a + (t + 1) from by omega], rfl⟩

/-- A retryable `request` whose first response is transient with a nonzero
`Retry-After` makes at least two calls, and the waits before the second call
are the advertised duration followed by the backoff wait of attempt 0. -/
theorem requestRun_transient_first_gap (responses : Nat → HttpResponse)
    (retries : Nat) (baseDelay : ℚ) (jitter : Nat → ℚ) (rq : ℚ)
    (h1 : 1 ≤ retries)
    (h2 : (responses 0).status = 429 ∨ 500 ≤ (responses 0).status)
    (h3 : (responses 0).retryAfter = some rq) (h4 : rq * 1000 ≠ 0) :
    (2 ≤ (requestRun responses retries baseDelay jitter).2.1)
    ∧ ((requestRun responses retries baseDelay jitter).2.2.head?
        = some [rq * 1000, backoffWait baseDelay jitter 0]) := by
  obtain ⟨r, rfl⟩ : ∃ r, retries = r + 1 := ⟨retries - 1, by omega⟩
  have hstep : requestAttempt (responses 0) = ([rq * 1000], Except.error ()) := by
    unfold requestAttempt
    rw [if_pos h2, h3]
    simp [h4]
  unfold requestRun withBackoff withBackoffLoop
  simp only [hstep]
  constructor
  · have hpos := withBackoffLoop_calls_pos (fun i => requestAttempt (responses i))
      baseDelay jitter 1 r
    simp
    omega
  · simp

/-! ### C9 — retry budget of `withBackoff` -/

/-- C9 (amended): `withBackoff` waits `baseDelay * 2 ^ attempt` plus the
sampled jitter between attempts, and executes the operation at most
`maxRetries + 1` times in total — one initial call plus up to `maxRetries`
retries (5 executions at the default `maxRetries = 4`), not `maxRetries`
times; when every attempt fails, the final attempt's error is surfaced. -/
theorem withBackoff_retry_policy {E T : Type} (retries : Nat) (baseDelay : ℚ)
    (jitter : Nat → ℚ) :
    (∀ fn : Nat → List ℚ × Except E T,
      (withBackoff fn retries baseDelay jitter).2.1 ≤ retries + 1)
    ∧ (∀ (gn : Nat → List ℚ × Except E T) (errf : Nat → E),
      (∀ i, gn i = ([], Except.error (errf i))) →
      withBackoff gn retries baseDelay jitter
        = (Except.error (errf retries), retries + 1,
           (List.range retries).map
             (fun t => [backoffWait baseDelay jitter t]) ++ [[]])) := by
  constructor
  · intro fn
    exact withBackoffLoop_calls_le fn baseDelay jitter retries 0
  · intro gn errf hfail
    unfold withBackoff
    rw [withBackoffLoop_fail gn baseDelay jitter errf hfail retries 0]
    simp

/-- Witness for C9: an always-failing operation under the default budget
`maxRetries = 4`, base delay 250 ms, zero jitter: 5 executions, the last
error surfaced, one backoff wait per gap. -/
theorem withBackoff_retry_policy_witness :
    (∀ i, failFn i = ([], Except.error i))
    ∧ withBackoff failFn 4 250 zeroJitter
        = (Except.error 4, 5,
           (List.range 4).map (fun t => [backoffWait 250 zeroJitter t]) ++ [[]]) :=
  ⟨fun _ => rfl,
    (withBackoff_retry_policy 4 250 zeroJitter).2 failFn (fun i => i) (fun _ => rfl)⟩

/-- C9 counterexample: with `maxRetries = 4` an always-failing operation is
executed 5 times, refuting "at most maxRetries times in total (default 4)". -/
theorem withBackoff_retry_cap_counterexample :
    (withBackoff failFn 4 250 zeroJitter).2.1 = 5
    ∧ ¬ ((withBackoff failFn 4 250 zeroJitter).2.1 ≤ 4) := by
  have h := withBackoffLoop_fail failFn 250 zeroJitter (fun i => i) (fun _ => rfl) 4 0
  unfold withBackoff
  rw [h]
  norm_num

/-! ### C8 — transient retries and `Retry-After` -/

/-- C8 (amended): when a retryable request (`retries ≥ 1`) receives a 429 or
5xx response carrying a nonzero `Retry-After`, the request is retried, and
the advertised duration is awaited in addition to the computed
exponential-backoff wait, not instead of it — the waits before the second
call are exactly `[retryAfter * 1000, baseDelay * 2 ^ 0 + jitter 0]`. -/
theorem request_retryAfter_added (responses : Nat → HttpResponse)
    (retries : Nat) (baseDelay : ℚ) (jitter : Nat → ℚ) (rq : ℚ)
    (h1 : 1 ≤ retries)
    (h2 : (responses 0).status = 429 ∨ 500 ≤ (responses 0).status)
    (h3 : (responses 0).retryAfter = some rq) (h4 : rq * 1000 ≠ 0) :
    (2 ≤ (requestRun responses retries baseDelay jitter).2.1)
    ∧ ((requestRun responses retries baseDelay jitter).2.2.head?
        = some [rq * 1000, backoffWait baseDelay jitter 0]) :=
  requestRun_transient_first_gap responses retries baseDelay jitter rq h1 h2 h3 h4

/-- Witness for C8: a permanently-503 endpoint advertising `Retry-After: 1`
under the default budget with zero jitter. -/
theorem request_retryAfter_added_witness :
    ((1 : Nat) ≤ 4 ∧ ((resp503 0).status = 429 ∨ 500 ≤ (resp503 0).status)
      ∧ (resp503 0).retryAfter = some 1 ∧ (1 : ℚ) * 1000 ≠ 0)
    ∧ ((requestRun resp503 4 250 zeroJitter).2.2.head?
        = some [(1 : ℚ) * 1000, backoffWait 250 zeroJitter 0]) :=
  ⟨⟨by omega, Or.inr (by norm_num [resp503]), rfl, by norm_num⟩,
    (request_retryAfter_added resp503 4 250 zeroJitter 1 (by omega)
      (Or.inr (by norm_num [resp503])) rfl (by norm_num)).2⟩

/-- C8 counterexample: the waits before the second attempt are
`[1000, 250]` — the advertised `Retry-After` duration followed by the
computed backoff wait — not the advertised duration alone. -/
theorem request_retryAfter_override_counterexample :
    ((requestRun resp503 4 250 zeroJitter).2.2.head? = some [1000, 250])
    ∧ (requestRun resp503 4 250 zeroJitter).2.2.head? ≠ some [1000] := by
  have h := (requestRun_transient_first_gap resp503 4 250 zeroJitter 1 (by omega)
    (Or.inr (by norm_num [resp503])) rfl (by norm_num)).2
  have hval : [(1 : ℚ) * 1000, backoffWait 250 zeroJitter 0] = [1000, 250] := by
    norm_num [backoffWait, zeroJitter]
  rw [h, hval]
  refine ⟨rfl, ?_⟩
  intro hc
  have := congrArg (fun o => (Option.getD o []).length) hc
  norm_num at this

/-! ### Character and hex-decoding lemmas (C10) -/

/-- Applying `Char.ofNat` to a valid code point decodes back to it. -/
theorem char_toNat_ofNat_valid (n : Nat) (h : n.isValidChar) :
    (Char.ofNat n).toNat = n := by
  unfold Char.ofNat
  rw [dif_pos h]
  rfl

/-- The code point of `Char.toLower`: shifted by 32 on `A-Z`, else kept. -/
theorem toLower_toNat (c : Char) :
    (c.toLower).toNat
      = if 65 ≤ c.toNat ∧ c.toNat ≤ 90 then c.toNat + 32 else c.toNat := by
  unfold Char.toLower
  by_cases h : 65 ≤ c.toNat ∧ c.toNat ≤ 90
  · rw [if_pos ⟨h.1, h.2⟩, if_pos h]
    exact char_toNat_ofNat_valid _ (Or.inl (by omega))
  · rw [if_neg ?_, if_neg h]
    intro hc
    exact h ⟨hc.1, hc.2⟩

/-- A lowercased character is never in the ASCII uppercase range. -/
theorem toLower_not_upper (c : Char) :
    ¬ (65 ≤ (c.toLower).toNat ∧ (c.toLower).toNat ≤ 90) := by
  rw [toLower_toNat]
  by_cases h : 65 ≤ c.toNat ∧ c.toNat ≤ 90
  · rw [if_pos h]
    omega
  · rw [if_neg h]
    omega

/-- Hex-nibble values are below 16. -/
theorem hexNibble_lt (c : Char) (v : Nat) (h : hexNibble c = some v) : v < 16 := by
  unfold hexNibble at h
  dsimp only at h
  split_ifs at h <;> simp only [Option.some.injEq] at h <;> omega

/-- A canonical lowercase hex digit has a nibble value. -/
theorem ValidLowerHex_nibble (c : Char) (h : ValidLowerHex c) :
    ∃ v, hexNibble c = some v := by
  unfold hexNibble
  rcases h with h | h
  · rw [if_pos h]
    exact ⟨_, rfl⟩
  · rw [if_neg (by omega), if_pos h]
    exact ⟨_, rfl⟩

/-- A canonical lowercase hex digit is not ASCII uppercase. -/
theorem ValidLowerHex_not_upper (c : Char) (h : ValidLowerHex c) :
    ¬ (65 ≤ c.toNat ∧ c.toNat ≤ 90) := by
  rcases h with h | h <;> omega

/-- The map `hexNibble` is injective on characters outside the uppercase range. -/
theorem hexNibble_inj_nonupper (c d : Char) (v : Nat)
    (hc : ¬ (65 ≤ c.toNat ∧ c.toNat ≤ 90))
    (hd : ¬ (65 ≤ d.toNat ∧ d.toNat ≤ 90))
    (h1 : hexNibble c = some v) (h2 : hexNibble d = some v) : c = d := by
  have hnat : c.toNat = d.toNat := by
    unfold hexNibble at h1 h2
    dsimp only at h1 h2
    split_ifs at h1 h2 <;> simp only [Option.some.injEq] at h1 h2 <;> omega
  have := congrArg Char.ofNat hnat
  rwa [Char.ofNat_toNat, Char.ofNat_toNat] at this

/-- Decoding a pair of valid nibbles prepends the byte. -/
theorem hexDecodeList_cons (c1 c2 : Char) (rest : List Char) (v1 v2 : Nat)
    (h1 : hexNibble c1 = some v1) (h2 : hexNibble c2 = some v2) :
    hexDecodeList (c1 :: c2 :: rest) = (v1 * 16 + v2) :: hexDecodeList rest := by
  rw [hexDecodeList, h1, h2]

/-- Decoding stops (with `[]`) at an invalid leading nibble. -/
theorem hexDecodeList_stop (c1 c2 : Char) (rest : List Char)
    (h : hexNibble c1 = none ∨ hexNibble c2 = none) :
    hexDecodeList (c1 :: c2 :: rest) = [] := by
  rw [hexDecodeList]
  rcases h with h | h
  · rw [h]
  · rw [h]
    cases hexNibble c1 <;> rfl

/-- Bounded-fuel core of hex-decode injectivity: two equal-length strings
decode identically only if they are equal, provided the right one is
canonical lowercase hex of even length and the left one contains no ASCII
uppercase characters. -/
theorem hexDecodeList_inj_fuel (n : Nat) : ∀ (l1 l2 : List Char),
    l2.length ≤ n → l1.length = l2.length →
    (∀ c ∈ l1, ¬ (65 ≤ c.toNat ∧ c.toNat ≤ 90)) →
    (∀ c ∈ l2, ValidLowerHex c) →
    l2.length % 2 = 0 →
    hexDecodeList l1 = hexDecodeList l2 → l1 = l2 := by
  induction n with
  | zero =>
    intro l1 l2 hn hlen _ _ _ _
    have h2 : l2 = [] := List.eq_nil_of_length_eq_zero (by omega)
    have h1 : l1 = [] := List.eq_nil_of_length_eq_zero (by omega)
    rw [h1, h2]
  | succ n ih =>
    intro l1 l2 hn hlen h1 h2 hpar hdec
    rcases l2 with _ | ⟨d1, l2t⟩
    · exact List.eq_nil_of_length_eq_zero (by simpa using hlen)
    · rcases l2t with _ | ⟨d2, r2⟩
      · simp at hpar
      · rcases l1 with _ | ⟨c1, l1t⟩
        · simp at hlen
        · rcases l1t with _ | ⟨c2, r1⟩
          · simp at hlen
          · obtain ⟨w1, hw1⟩ := ValidLowerHex_nibble d1 (h2 d1 (by simp))
            obtain ⟨w2, hw2⟩ := ValidLowerHex_nibble d2 (h2 d2 (by simp))
            rw [hexDecodeList_cons d1 d2 r2 w1 w2 hw1 hw2] at hdec
            cases hv1 : hexNibble c1 with
            | none =>
              rw [hexDecodeList_stop c1 c2 r1 (Or.inl hv1)] at hdec
              simp at hdec
            | some v1 =>
              cases hv2 : hexNibble c2 with
              | none =>
                rw [hexDecodeList_stop c1 c2 r1 (Or.inr hv2)] at hdec
                simp at hdec
              | some v2 =>
                rw [hexDecodeList_cons c1 c2 r1 v1 v2 hv1 hv2,
                  List.cons.injEq] at hdec
                obtain ⟨hbyte, hrest⟩ := hdec
                have hb1 := hexNibble_lt c1 v1 hv1
                have hb2 := hexNibble_lt c2 v2 hv2
                have hb3 := hexNibble_lt d1 w1 hw1
                have hb4 := hexNibble_lt d2 w2 hw2
                have hv : v1 = w1 ∧ v2 = w2 := by omega
                have hc1 : c1 = d1 :=
                  hexNibble_inj_nonupper c1 d1 w1 (h1 c1 (by simp))
                    (ValidLowerHex_not_upper d1 (h2 d1 (by simp)))
                    (hv.1 ▸ hv1) hw1
                have hc2 : c2 = d2 :=
                  hexNibble_inj_nonupper c2 d2 w2 (h1 c2 (by simp))
                    (ValidLowerHex_not_upper d2 (h2 d2 (by simp)))
                    (hv.2 ▸ hv2) hw2
                have hr : r1 = r2 := by
                  refine ih r1 r2 (by simp at hn; omega) (by simpa using hlen)
                    (fun c hc => h1 c (by simp [hc]))
                    (fun c hc => h2 c (by simp [hc]))
                    (by simp at hpar ⊢; omega) hrest
                rw [hc1, hc2, hr]

/-- Hex-decode injectivity for the signature comparison. -/
theorem hexDecodeList_inj (l1 l2 : List Char)
    (hlen : l1.length = l2.length)
    (h1 : ∀ c ∈ l1, ¬ (65 ≤ c.toNat ∧ c.toNat ≤ 90))
    (h2 : ∀ c ∈ l2, ValidLowerHex c)
    (hpar : l2.length % 2 = 0)
    (hdec : hexDecodeList l1 = hexDecodeList l2) : l1 = l2 :=
  hexDecodeList_inj_fuel l2.length l1 l2 (le_refl _) hlen h1 h2 hpar hdec

/-- The characters of `s.toLower` are the lowercased characters of `s`. -/
theorem toLower_data (s : String) :
    (s.toLower).data = s.data.map Char.toLower := by
  show (String.map Char.toLower s).data = s.data.map Char.toLower
  rw [String.map_eq]

/-- Acceptance of `verifySignature`, characterised: with a digest that is
64 lowercase hex characters, a submitted signature is accepted exactly when
its lowercasing equals the digest. -/
theorem verifySignature_eq_true_iff {α : Type} (hmacHex : α → String) (p : α)
    (hlen : (hmacHex p).length = 64)
    (hhex : ∀ c ∈ (hmacHex p).data, ValidLowerHex c) (sig : Option String) :
    verifySignature hmacHex p sig = true
      ↔ ∃ s, sig = some s ∧ s.toLower = hmacHex p := by
  cases sig with
  | none => simp [verifySignature]
  | some s =>
    simp only [Option.some.injEq]
    constructor
    · intro hv
      unfold verifySignature at hv
      dsimp only at hv
      by_cases hse : (s == "") = true
      · rw [if_pos hse] at hv
        exact absurd hv (by simp)
      · rw [if_neg hse] at hv
        by_cases hl : (hmacHex p).length ≠ (s.toLower).length
        · rw [if_pos hl] at hv
          exact absurd hv (by simp)
        · rw [if_neg hl] at hv
          push_neg at hl
          unfold timingSafeEqual at hv
          by_cases hdl : (hexDecode (s.toLower)).length
              ≠ (hexDecode (hmacHex p)).length
          · rw [if_pos hdl] at hv
            exact absurd hv (by simp)
          · rw [if_neg hdl] at hv
            simp only [beq_iff_eq] at hv
            refine ⟨s, rfl, ?_⟩
            apply String.ext
            apply hexDecodeList_inj
            · exact hl.symm
            · intro c hc
              rw [toLower_data] at hc
              simp only [List.mem_map] at hc
              obtain ⟨c0, _, rfl⟩ := hc
              exact toLower_not_upper c0
            · exact hhex
            · show (hmacHex p).data.length % 2 = 0
              have h64 : (hmacHex p).data.length = 64 := hlen
              omega
            · exact hv
    · rintro ⟨s', hs', hlow⟩
      subst hs'
      unfold verifySignature
      dsimp only
      have hsne : (s == "") = false := by
        rw [beq_eq_false_iff_ne]
        intro h0
        subst h0
        have hemp : ("" : String).toLower = "" := String.ext (by rw [toLower_data]; rfl)
        rw [hemp] at hlow
        rw [← hlow] at hlen
        exact absurd hlen (by decide)
      rw [if_neg (by simp [hsne]), hlow, if_neg (by simp)]
      unfold timingSafeEqual
      rw [if_neg (by simp)]
      simp

/-! ### C10 — `verifySignature` acceptance and totality -/

/-- C10: for every payload and submitted signature, `verifySignature`
returns `true` exactly when the signature, after lowercasing, equals the
(lowercase hex, 64-character) HMAC digest of the payload — so an uppercase
correct signature is accepted — and in every other case (wrong length,
non-hex characters, absent or empty signature) it returns `false`: the
`timingSafeEqual` throw is caught and mapped to `false`, never escaping. -/
theorem verifySignature_correct {α : Type} (hmacHex : α → String) (p : α)
    (hlen : (hmacHex p).length = 64)
    (hhex : ∀ c ∈ (hmacHex p).data, ValidLowerHex c) :
    ∀ sig : Option String,
      verifySignature hmacHex p sig = true
        ↔ ∃ s, sig = some s ∧ s.toLower = hmacHex p :=
  fun sig => verifySignature_eq_true_iff hmacHex p hlen hhex sig

/-- Witness for C10: the fixed 64-character digest with the signature
submitted in uppercase hex is accepted. -/
theorem verifySignature_correct_witness :
    ((hmacFixed ()).length = 64 ∧ (∀ c ∈ (hmacFixed ()).data, ValidLowerHex c))
    ∧ verifySignature hmacFixed () (some expectedHexUpper) = true :=
  ⟨⟨by decide, by decide⟩,
    (verifySignature_correct hmacFixed () (by decide) (by decide)
        (some expectedHexUpper)).mpr
      ⟨expectedHexUpper, rfl, String.ext (by rw [toLower_data]; decide)⟩⟩

/-! ### Webhook handler lemmas (C6/C7) -/

/-- A signature whose lowercasing equals a nonempty digest is accepted. -/
theorem verifySignature_of_toLower_eq {α : Type} (hmacHex : α → String) (p : α)
    (s : String) (hne : hmacHex p ≠ "") (hlow : s.toLower = hmacHex p) :
    verifySignature hmacHex p (some s) = true := by
  unfold verifySignature
  dsimp only
  have hsne : (s == "") = false := by
    rw [beq_eq_false_iff_ne]
    intro h0
    subst h0
    have hemp : ("" : String).toLower = "" := String.ext (by rw [toLower_data]; rfl)
    rw [hemp] at hlow
    exact hne hlow.symm
  rw [if_neg (by simp [hsne]), hlow, if_neg (by simp)]
  unfold timingSafeEqual
  rw [if_neg (by simp)]
  simp

/-- A key appended to a map that lacks it is found. -/
theorem mapGet_append_single_self {R : Type} (m : List (String × R)) (k : String)
    (v : R) (hm : mapGet m k = none) : mapGet (m ++ [(k, v)]) k = some v := by
  unfold mapGet at *
  rw [List.find?_append]
  have hf : m.find? (fun e => e.1 == k) = none := by
    cases hfind : m.find? (fun e => e.1 == k) with
    | none => rfl
    | some e => rw [hfind] at hm; simp at hm
  rw [hf]
  simp

/-- The handler's fresh-key path: the delivery row is inserted with the
payload hash, the audit row upserted, and `{accepted, deduped: false}`
returned with status 200. -/
theorem postLogTransactions_fresh (hmacHex shaHex : EconomyEventPayload → String)
    (req : LogRequest) (db : ApiDb) (p : EconomyEventPayload) (k : String)
    (hp : req.bodyPayload = some p)
    (hv : verifySignature hmacHex p (jsCoalesce req.sigHeader req.bodySignature) = true)
    (hk : jsCoalesce req.keyHeader req.bodyIdempotencyKey = some k)
    (hkne : (k == "") = false)
    (hd : mapGet db.deliveries k = none) :
    postLogTransactions hmacHex shaHex req db
      = (200, ApiBody.accepted false,
         { deliveries := db.deliveries ++ [(k, shaHex p)]
           audits :=
             if (db.audits.find? (fun r => r.txnId == p.txnId)).isSome
             then db.audits
             else db.audits ++ [auditRowOf p] }) := by
  unfold postLogTransactions
  rw [hp, hk]
  dsimp only
  rw [if_neg (by simp [hv]), if_neg (by simp [strFalsy, hkne])]
  simp only [Option.getD_some]
  rw [hd]

/-- The handler's conflict path: a present delivery row whose stored hash
differs from the incoming payload hash makes the transaction throw, which
the error middleware answers with `500 {error: "internal_error"}`; the
database (audit rows included) is unchanged. -/
theorem postLogTransactions_conflict (hmacHex shaHex : EconomyEventPayload → String)
    (req : LogRequest) (db : ApiDb) (p : EconomyEventPayload) (k h : String)
    (hp : req.bodyPayload = some p)
    (hv : verifySignature hmacHex p (jsCoalesce req.sigHeader req.bodySignature) = true)
    (hk : jsCoalesce req.keyHeader req.bodyIdempotencyKey = some k)
    (hkne : (k == "") = false)
    (hd : mapGet db.deliveries k = some h)
    (hneq : (h == shaHex p) = false) :
    postLogTransactions hmacHex shaHex req db
      = (500, ApiBody.errorMsg "internal_error", db) := by
  unfold postLogTransactions
  rw [hp, hk]
  dsimp only
  rw [if_neg (by simp [hv]), if_neg (by simp [strFalsy, hkne])]
  simp only [Option.getD_some]
  rw [hd]
  dsimp only
  rw [if_neg (show ¬ ((h == shaHex p) = true) from by simp [hneq])]

/-! ### C6 — idempotency-key conflict response -/

/-- C6 (amended): for two POSTs to `/log/transactions` carrying the same
(nonempty) idempotency key but payloads with differing payload hashes, the
second request is answered with HTTP 500 and body
`{error: "internal_error"}` — the conflict `Error` thrown inside the
transaction reaches the generic error middleware, not a 409 — and no audit
row is written for it (the database is unchanged). -/
theorem webhook_conflict_second_500 (hmacHex shaHex : EconomyEventPayload → String)
    (req1 req2 : LogRequest) (db0 : ApiDb) (p1 p2 : EconomyEventPayload) (k : String)
    (hp1 : req1.bodyPayload = some p1)
    (hv1 : verifySignature hmacHex p1 (jsCoalesce req1.sigHeader req1.bodySignature) = true)
    (hk1 : jsCoalesce req1.keyHeader req1.bodyIdempotencyKey = some k)
    (hkne : (k == "") = false)
    (hd0 : mapGet db0.deliveries k = none)
    (hp2 : req2.bodyPayload = some p2)
    (hv2 : verifySignature hmacHex p2 (jsCoalesce req2.sigHeader req2.bodySignature) = true)
    (hk2 : jsCoalesce req2.keyHeader req2.bodyIdempotencyKey = some k)
    (hneq : (shaHex p1 == shaHex p2) = false) :
    postLogTransactions hmacHex shaHex req2
        ((postLogTransactions hmacHex shaHex req1 db0).2.2)
      = (500, ApiBody.errorMsg "internal_error",
         (postLogTransactions hmacHex shaHex req1 db0).2.2) := by
  rw [postLogTransactions_fresh hmacHex shaHex req1 db0 p1 k hp1 hv1 hk1 hkne hd0]
  exact postLogTransactions_conflict hmacHex shaHex req2 _ p2 k (shaHex p1)
    hp2 hv2 hk2 hkne
    (mapGet_append_single_self db0.deliveries k (shaHex p1) hd0) hneq

/-- Witness for C6: requests `A` then `B` under key `K` on an empty store. -/
theorem webhook_conflict_second_500_witness :
    (reqPost1.bodyPayload = some (mkPayload "A")
      ∧ reqPost2.bodyPayload = some (mkPayload "B")
      ∧ mapGet emptyDb.deliveries "K" = none
      ∧ (shaTxn (mkPayload "A") == shaTxn (mkPayload "B")) = false)
    ∧ postLogTransactions hmacConst shaTxn reqPost2
        ((postLogTransactions hmacConst shaTxn reqPost1 emptyDb).2.2)
      = (500, ApiBody.errorMsg "internal_error",
         (postLogTransactions hmacConst shaTxn reqPost1 emptyDb).2.2) :=
  ⟨⟨rfl, rfl, rfl, by decide⟩,
    webhook_conflict_second_500 hmacConst shaTxn reqPost1 reqPost2 emptyDb
      (mkPayload "A") (mkPayload "B") "K" rfl
      (verifySignature_of_toLower_eq hmacConst (mkPayload "A") "aa" (by decide)
        (String.ext (by rw [toLower_data]; decide)))
      rfl (by decide) rfl rfl
      (verifySignature_of_toLower_eq hmacConst (mkPayload "B") "aa" (by decide)
        (String.ext (by rw [toLower_data]; decide)))
      rfl (by decide)⟩

/-- C6 counterexample: the literal two-POST run — the second response is
`500 {error: "internal_error"}`, not `409 {error: "Idempotency key
conflict"}`. -/
theorem webhook_conflict_counterexample :
    postLogTransactions hmacConst shaTxn reqPost1 emptyDb
        = (200, ApiBody.accepted false, dbAfterPost1)
    ∧ postLogTransactions hmacConst shaTxn reqPost2 dbAfterPost1
        = (500, ApiBody.errorMsg "internal_error", dbAfterPost1)
    ∧ (500 : Nat) ≠ 409
    ∧ ApiBody.errorMsg "internal_error" ≠ ApiBody.errorMsg "Idempotency key conflict" := by
  refine ⟨?_, ?_, by decide, by decide⟩
  · rw [postLogTransactions_fresh hmacConst shaTxn reqPost1 emptyDb (mkPayload "A")
      "K" rfl
      (verifySignature_of_toLower_eq hmacConst (mkPayload "A") "aa" (by decide)
        (String.ext (by rw [toLower_data]; decide)))
      rfl (by decide) rfl]
    decide
  · exact postLogTransactions_conflict hmacConst shaTxn reqPost2 dbAfterPost1
      (mkPayload "B") "K" "A" rfl
      (verifySignature_of_toLower_eq hmacConst (mkPayload "B") "aa" (by decide)
        (String.ext (by rw [toLower_data]; decide)))
      rfl (by decide) (by decide) (by decide)

/-! ### C7 — missing idempotency key vs. signature order -/

/-- C7 (amended): a POST carrying a payload but no idempotency key is
answered 400 only when its signature verifies; the signature is checked
before the key requirement, so with a missing or invalid signature such a
request is answered 401, not 400. -/
theorem webhook_missing_key_after_signature
    (hmacHex shaHex : EconomyEventPayload → String) (req : LogRequest)
    (db : ApiDb) (p : EconomyEventPayload)
    (hp : req.bodyPayload = some p)
    (hk : strFalsy (jsCoalesce req.keyHeader req.bodyIdempotencyKey) = true) :
    (verifySignature hmacHex p (jsCoalesce req.sigHeader req.bodySignature) = true →
      postLogTransactions hmacHex shaHex req db
        = (400, ApiBody.errorMsg "Idempotency-Key header required", db))
    ∧ (verifySignature hmacHex p (jsCoalesce req.sigHeader req.bodySignature) = false →
      postLogTransactions hmacHex shaHex req db
        = (401, ApiBody.errorMsg "invalid signature", db)) := by
  constructor
  · intro hv
    unfold postLogTransactions
    rw [hp]
    dsimp only
    rw [if_neg (by simp [hv]), if_pos hk]
  · intro hv
    unfold postLogTransactions
    rw [hp]
    dsimp only
    rw [if_pos (by simp [hv])]

/-- Witness for C7: a payload-only request with no signature and no key is
answered 401. -/
theorem webhook_missing_key_witness :
    (reqNoKeyNoSig.bodyPayload = some (mkPayload "A")
      ∧ strFalsy (jsCoalesce reqNoKeyNoSig.keyHeader reqNoKeyNoSig.bodyIdempotencyKey) = true
      ∧ verifySignature hmacConst (mkPayload "A")
          (jsCoalesce reqNoKeyNoSig.sigHeader reqNoKeyNoSig.bodySignature) = false)
    ∧ postLogTransactions hmacConst shaTxn reqNoKeyNoSig emptyDb
        = (401, ApiBody.errorMsg "invalid signature", emptyDb) :=
  ⟨⟨rfl, rfl, rfl⟩,
    (webhook_missing_key_after_signature hmacConst shaTxn reqNoKeyNoSig emptyDb
      (mkPayload "A") rfl rfl).2 rfl⟩

/-- C7 counterexample: a request with a payload but no idempotency key
(and no signature) receives 401, not the claimed 400. -/
theorem webhook_missing_key_counterexample :
    reqNoKeyNoSig.bodyPayload = some (mkPayload "A")
    ∧ reqNoKeyNoSig.keyHeader = none
    ∧ reqNoKeyNoSig.bodyIdempotencyKey = none
    ∧ (postLogTransactions hmacConst shaTxn reqNoKeyNoSig emptyDb).1 = 401
    ∧ (postLogTransactions hmacConst shaTxn reqNoKeyNoSig emptyDb).1 ≠ 400 := by
  decide
